import Mathlib

/-!
Verification of the IKRAE learning-path optimizer (`src/ikrae_optimizer.py`).

Shallow embedding conventions:
* Python floats are modelled as `ℚ` (all constants in the source are exact
  decimals, so this is faithful).
* Python dict rows (`row.to_dict()`) are modelled as structures whose fields
  are `Option`-valued; `dict.get(key, default)` becomes `Option.getD`.
* A raised Python exception is modelled by `Except.error`.
* `networkx.DiGraph` is modelled by its node list (insertion order, no
  duplicates) and edge list (insertion order, no duplicates), plus the
  attribute, weight, and cost-breakdown maps the optimizer stores on it.
* `nx.shortest_path` / `nx.shortest_simple_paths` are modelled by their
  documented contract: enumeration of all simple START→GOAL paths sorted by
  non-decreasing total weight (stable), the single shortest path being the
  first of them.
-/

namespace Ikrae

/-- One row of the learning-object table, as consumed by the optimizer
(`row.to_dict()`): every attribute other than the id may be absent. -/
structure LO where
  lo_id : String
  duration_min : Option ℚ
  pedagogical_weight : Option ℚ
  type : Option String
  language : Option String
  requires_mastery : Option ℚ
deriving DecidableEq

/-- The user-context dict; all keys optional (accessed via `.get` except for
the one raw `user_context['language']` access in `apply_semantic_filter`). -/
structure UserContext where
  device : Option String
  bandwidth : Option String
  language : Option String
  mastery_level : Option ℚ
  time_budget_min : Option ℚ
deriving DecidableEq

/-- `ALPHA = 0.4` (duration weight). -/
def ALPHA : ℚ := 2/5

/-- `BETA = 0.3` (difficulty weight). -/
def BETA : ℚ := 3/10

/-- `GAMMA = 0.3` (context-penalty weight). -/
def GAMMA : ℚ := 3/10

/-- The `max(total, 1e-6)` floor used in `build_weighted_dag`. -/
def EPSILON : ℚ := 1/1000000

/-- `compute_context_penalty(lo, user_context)`: sequential accumulation of
the five penalty terms, in source order (bandwidth, device, time budget,
language, mastery). -/
def compute_context_penalty (lo : LO) (ctx : UserContext) : ℚ :=
  let p1 : ℚ := if lo.type = some "video" ∧ ctx.bandwidth = some "low" then 15 else 0
  let p2 : ℚ := if lo.type = some "video" ∧ ctx.device = some "mobile" then 8 else 0
  let remaining : ℚ := ctx.time_budget_min.getD 60
  let p3 : ℚ := if lo.duration_min.getD 5 > remaining * (7/10) then 20 else 0
  let p4 : ℚ := if lo.language ≠ ctx.language then 25 else 0
  let p5 : ℚ := if lo.requires_mastery.getD 0 > ctx.mastery_level.getD 1 then 100 else 0
  p1 + p2 + p3 + p4 + p5

/-- One step of `apply_semantic_filter`'s per-row rule chain.
Returns `some lo_id` when the row is infeasible, `none` when it is kept, and
`Except.error` for the `KeyError` raised by the raw `user_context['language']`
access (reached only when the row's language is a non-empty string). -/
def filterStep (ctx : UserContext) (lo : LO) : Except String (Option String) :=
  if lo.requires_mastery.getD 0 > ctx.mastery_level.getD 1 then
    Except.ok (some lo.lo_id)
  else if lo.type = some "video" ∧ ctx.bandwidth = some "low" then
    Except.ok (some lo.lo_id)
  else
    match lo.language with
    | some s =>
        if s ≠ "" then
          match ctx.language with
          | some cl => if s ≠ cl then Except.ok (some lo.lo_id) else Except.ok none
          | none => Except.error "KeyError: language"
        else Except.ok none
    | none => Except.ok none

/-- `apply_semantic_filter(lo_df, user_context)`: returns the surviving rows
(in order) and the ids of the infeasible rows (in order). -/
def apply_semantic_filter (lo_df : List LO) (ctx : UserContext) :
    Except String (List LO × List String) :=
  match lo_df with
  | [] => Except.ok ([], [])
  | lo :: rest =>
    match filterStep ctx lo with
    | Except.error e => Except.error e
    | Except.ok r =>
      match apply_semantic_filter rest ctx with
      | Except.error e => Except.error e
      | Except.ok (fs, infs) =>
        match r with
        | some i => Except.ok (fs, i :: infs)
        | none => Except.ok (lo :: fs, infs)

/-- `G.add_node`: append a node unless already present (insertion order kept). -/
def addNode (ns : List String) (n : String) : List String :=
  if n ∈ ns then ns else ns ++ [n]

/-- `G.add_edge`: append an edge unless already present. `add_edge` also
inserts missing endpoints as attribute-less nodes, which `baseNodes` mirrors. -/
def insertEdge (es : List (String × String)) (e : String × String) :
    List (String × String) :=
  if e ∈ es then es else es ++ [e]

/-- Node list of the DiGraph after the node loop and the prerequisite-edge
loop of `build_weighted_dag` (before START/GOAL are added): one node per
`lo_df` row, then both endpoints of every prerequisite edge. -/
def baseNodes (lo_df : List LO) (prereq : List (String × String)) : List String :=
  prereq.foldl (fun ns e => addNode (addNode ns e.1) e.2)
    (lo_df.foldl (fun ns lo => addNode ns lo.lo_id) [])

/-- Edge list of the DiGraph after the prerequisite-edge loop (deduplicated,
insertion order). -/
def prereqEdgeList (prereq : List (String × String)) : List (String × String) :=
  prereq.foldl insertEdge []

/-- `entry_los`: nodes with in-degree 0, START/GOAL excluded. -/
def entryLos (lo_df : List LO) (prereq : List (String × String)) : List String :=
  (baseNodes lo_df prereq).filter
    (fun n => (prereqEdgeList prereq).all (fun e => e.2 != n) && n != "START" && n != "GOAL")

/-- `exit_los`: nodes with out-degree 0, START/GOAL excluded. -/
def exitLos (lo_df : List LO) (prereq : List (String × String)) : List String :=
  (baseNodes lo_df prereq).filter
    (fun n => (prereqEdgeList prereq).all (fun e => e.1 != n) && n != "START" && n != "GOAL")

/-- `G.nodes[v]` as seen by the weight loop: the attributes of the *last*
`lo_df` row with this id (later `add_node` calls overwrite), and the empty
dict for nodes that were only created implicitly by `add_edge`. -/
def nodeAttr (lo_df : List LO) (v : String) : LO :=
  (lo_df.reverse.find? (fun lo => lo.lo_id == v)).getD ⟨v, none, none, none, none, none⟩

/-- The weight `build_weighted_dag` assigns to edge `(u, v)`:
0 for `u == "START" or v == "GOAL"`, otherwise
`max(ALPHA*duration + BETA*(1 - pedagogical_weight) + GAMMA*penalty, 1e-6)`,
all attributes read from the destination `v`. -/
def edge_weight (lo_df : List LO) (ctx : UserContext) (u v : String) : ℚ :=
  if u = "START" ∨ v = "GOAL" then 0
  else
    let lo_v := nodeAttr lo_df v
    let duration := lo_v.duration_min.getD 5
    let ped := 1 - lo_v.pedagogical_weight.getD (1/2)
    let pen := compute_context_penalty lo_v ctx
    max (ALPHA * duration + BETA * ped + GAMMA * pen) EPSILON

/-- The `cost_breakdown` dict stored on a non-sentinel edge. -/
structure CostBreakdown where
  duration : ℚ
  difficulty : ℚ
  penalty : ℚ
  total : ℚ
deriving DecidableEq

/-- `G[u][v].get('cost_breakdown', {})`: the stored decomposition, `none` for
sentinel edges (on which the loop stores no breakdown). -/
def edge_breakdown (lo_df : List LO) (ctx : UserContext) (u v : String) :
    Option CostBreakdown :=
  if u = "START" ∨ v = "GOAL" then none
  else
    let lo_v := nodeAttr lo_df v
    let duration := lo_v.duration_min.getD 5
    let ped := 1 - lo_v.pedagogical_weight.getD (1/2)
    let pen := compute_context_penalty lo_v ctx
    some ⟨duration, ped, pen, ALPHA * duration + BETA * ped + GAMMA * pen⟩

/-- The weighted DiGraph produced by `build_weighted_dag`. -/
structure Graph where
  nodes : List String
  edges : List (String × String)
  attrs : String → LO
  weight : String → String → ℚ
  breakdown : String → String → Option CostBreakdown

/-- `build_weighted_dag(lo_df, prereq_edges, user_context)`: nodes from the
rows, edges from the prerequisite list verbatim (implicitly re-creating any
endpoint not among the rows), START/GOAL sentinels wired to the in-degree-0 /
out-degree-0 nodes, and the weight/breakdown maps of the weight loop. -/
def build_weighted_dag (lo_df : List LO) (prereq : List (String × String))
    (ctx : UserContext) : Graph :=
  let pes := prereqEdgeList prereq
  let nodes := addNode (addNode (baseNodes lo_df prereq) "START") "GOAL"
  let edges := pes ++ (entryLos lo_df prereq).map (fun n => ("START", n))
    ++ (exitLos lo_df prereq).map (fun n => (n, "GOAL"))
  ⟨nodes, edges, nodeAttr lo_df, edge_weight lo_df ctx, edge_breakdown lo_df ctx⟩

/-- Successors of `u` in edge-insertion order. -/
def succs (es : List (String × String)) (u : String) : List String :=
  (es.filter (fun e => e.1 == u)).map (fun e => e.2)

/-- Fuel-bounded enumeration of the simple paths from `u` to `"GOAL"` that
avoid `visited` (which contains every node already on the path, `u`
included). -/
def simplePathsAux (es : List (String × String)) :
    ℕ → String → List String → List (List String)
  | 0, u, _ => if u = "GOAL" then [[u]] else []
  | n + 1, u, visited =>
    if u = "GOAL" then [[u]]
    else
      ((succs es u).filter (fun v => !(visited.contains v))).flatMap
        (fun v => (simplePathsAux es n v (v :: visited)).map (fun p => u :: p))

/-- All nodes mentioned by the edge list, plus START (fuel bound for the
enumeration). -/
def edgeNodes (es : List (String × String)) : List String :=
  es.foldl (fun ns e => addNode (addNode ns e.1) e.2) ["START"]

/-- All simple `"START"` → `"GOAL"` paths of the graph with edge list `es`. -/
def simplePaths (es : List (String × String)) : List (List String) :=
  simplePathsAux es (edgeNodes es).length "START" ["START"]

/-- Total cost of a path: sum of the weights of its consecutive edges. -/
def pathCost (w : String → String → ℚ) : List String → ℚ
  | [] => 0
  | [_] => 0
  | u :: v :: rest => w u v + pathCost w (v :: rest)

/-- A float cost that may be the `float('inf')` no-path sentinel. -/
inductive Cost
  | finite (q : ℚ)
  | inf
deriving DecidableEq

/-- The dict entries returned by `optimize_path` (`rank`/`error` keys are
present only on some variants, hence `Option`). -/
structure PathResult where
  path : Option (List String)
  cost : Cost
  rank : Option ℕ
  error : Option String
deriving DecidableEq

/-- The simple START→GOAL paths in non-decreasing cost order (stable), as
produced by `nx.shortest_simple_paths`; its head is the path found by
`nx.shortest_path`. -/
def rankedPaths (es : List (String × String)) (w : String → String → ℚ) :
    List (List String) :=
  List.insertionSort (fun p q => pathCost w p ≤ pathCost w q) (simplePaths es)

/-- `optimize_path(G, k)`: the shortest path for `k == 1`, the first `k`
ranked simple paths otherwise, and the `NetworkXNoPath` handler's single
error entry (`cost = float('inf')`) when no path exists. -/
def optimize_path (es : List (String × String)) (w : String → String → ℚ)
    (k : ℕ) : List PathResult :=
  match rankedPaths es w with
  | [] => [⟨none, Cost.inf, none, some "No feasible path"⟩]
  | p :: ps =>
    if k = 1 then [⟨some p, Cost.finite (pathCost w p), some 1, none⟩]
    else ((p :: ps).take k).mapIdx
      (fun i q => ⟨some q, Cost.finite (pathCost w q), some (i + 1), none⟩)

/-- The reason string attached to an excluded LO by `generate_explanation`
(an inductive stands in for the three distinct f-string shapes). -/
inductive ExclusionReason
  | masteryTooLow (need : ℚ)
  | lowBandwidthVideo
  | unknown
deriving DecidableEq

/-- `generate_explanation`'s reason computation for one infeasible id, reading
the attributes from the graph (`G.nodes.get(lo, {})`). -/
def exclusionReason (g : Graph) (ctx : UserContext) (lo : String) : ExclusionReason :=
  let lo_data := g.attrs lo
  if lo_data.requires_mastery.getD 0 > ctx.mastery_level.getD 1 then
    ExclusionReason.masteryTooLow (lo_data.requires_mastery.getD 0)
  else if lo_data.type = some "video" ∧ ctx.bandwidth = some "low" then
    ExclusionReason.lowBandwidthVideo
  else ExclusionReason.unknown

/-- One entry of the trace's `cost_breakdown` list. -/
structure BreakdownEntry where
  src : String
  dst : String
  details : Option CostBreakdown
deriving DecidableEq

/-- An alternatives entry `{rank, cost, path}` added by the pipeline. -/
structure Alt where
  rank : Option ℕ
  cost : Cost
  path : Option (List String)
deriving DecidableEq

/-- The successful explanation trace (context echo and runtime fields, which
carry no verified content, are omitted). -/
structure Trace where
  optimal_path : List String
  total_cost : Cost
  cost_breakdown : List BreakdownEntry
  excluded_los : List (String × ExclusionReason)
  k_alternatives : List Alt
deriving DecidableEq

/-- `generate_explanation`'s output: either the `{"error": "No path found",
"infeasible_count": n}` dict or the full trace. -/
inductive Explanation
  | noPath (infeasible_count : ℕ) (k_alternatives : List Alt)
  | trace (t : Trace)
deriving DecidableEq

/-- `generate_explanation(G, path_result, user_context, infeasible_los)`. -/
def generate_explanation (g : Graph) (pr : PathResult) (ctx : UserContext)
    (infeasible : List String) : Explanation :=
  match pr.path with
  | none => Explanation.noPath infeasible.length []
  | some [] => Explanation.noPath infeasible.length []
  | some p =>
    Explanation.trace
      { optimal_path := p
        total_cost := pr.cost
        cost_breakdown := (p.zip p.tail).map (fun e => ⟨e.1, e.2, g.breakdown e.1 e.2⟩)
        excluded_los := infeasible.map (fun lo => (lo, exclusionReason g ctx lo))
        k_alternatives := [] }

/-- `explanation['k_alternatives'] = ...` in the pipeline (the key is set on
the error dict as well). -/
def setAlts : Explanation → List Alt → Explanation
  | Explanation.noPath c _, alts => Explanation.noPath c alts
  | Explanation.trace t, alts => Explanation.trace { t with k_alternatives := alts }

/-- `run_ikrae_pipeline` without its I/O glue (CSV load, JSON dump, runtime
measurement): filter (when `use_semantic`), build, optimize, explain, attach
alternatives. `paths[0]` on an empty list is the IndexError raised when
`k = 0`. -/
def run_ikrae_pipeline (lo_df : List LO) (prereq : List (String × String))
    (ctx : UserContext) (k : ℕ) (use_semantic : Bool) : Except String Explanation :=
  match (if use_semantic then apply_semantic_filter lo_df ctx
         else Except.ok (lo_df, [])) with
  | Except.error e => Except.error e
  | Except.ok (lo_df', infeasible) =>
    let g := build_weighted_dag lo_df' prereq ctx
    match optimize_path g.edges g.weight k with
    | [] => Except.error "IndexError: list index out of range"
    | primary :: rest =>
      Except.ok (setAlts (generate_explanation g primary ctx infeasible)
        (rest.map (fun p => ⟨p.rank, p.cost, p.path⟩)))

/-! ### Verification-layer definitions -/

/-- A simple (loopless) `"START"` → `"GOAL"` path of the graph with edge
list `es`. -/
def IsSimplePath (es : List (String × String)) (p : List String) : Prop :=
  p.head? = some "START" ∧ p.getLast? = some "GOAL" ∧ p.Nodup ∧
    p.Chain' (fun u v => (u, v) ∈ es)

/-- The actual paths contained in a list of search results (the no-path
error entry carries no path). -/
def pathsOf (rs : List PathResult) : List (List String) :=
  rs.filterMap (fun r => r.path)

/-- The k-shortest-paths contract asserted by the spec for `k > 1`: every
returned path is simple, costs are non-decreasing, and the number of
returned paths is at most `min k (number of simple paths)`, where
`simplePaths es` provably enumerates the simple paths exactly, without
duplicates. -/
def KShortestSpec (es : List (String × String)) (w : String → String → ℚ)
    (k : ℕ) : Prop :=
  (∀ p ∈ pathsOf (optimize_path es w k), IsSimplePath es p) ∧
  (pathsOf (optimize_path es w k)).Pairwise (fun p q => pathCost w p ≤ pathCost w q) ∧
  (pathsOf (optimize_path es w k)).length ≤ min k (simplePaths es).length ∧
  (∀ p, IsSimplePath es p ↔ p ∈ simplePaths es) ∧
  (simplePaths es).Nodup

/-- Modelled from the claim (C3), not from the source: the penalty is
asserted to be the sum of exactly four terms — video+low-bandwidth (+15),
video+mobile+long-duration (+10), language mismatch (+20), duration
exceeding `0.7 × time_budget` (+10). The unspecified "long duration"
threshold is taken as 15 min (the spec says "e.g. >15–20 min"); the
counterexample below uses a 5-minute video, insensitive to that choice. -/
def claimPenaltyC3 (lo : LO) (ctx : UserContext) : ℚ :=
  (if lo.type = some "video" ∧ ctx.bandwidth = some "low" then 15 else 0) +
  (if lo.type = some "video" ∧ ctx.device = some "mobile" ∧
      lo.duration_min.getD 5 > 15 then 10 else 0) +
  (if lo.language ≠ ctx.language then 20 else 0) +
  (if lo.duration_min.getD 5 > ctx.time_budget_min.getD 60 * (7/10) then 10 else 0)

/-- The three hard-exclusion rules actually present in
`apply_semantic_filter`, as a predicate on one row (valid when the context
has a language, i.e. when the filter's raw `user_context['language']` access
cannot raise). -/
def hardExcluded (ctx : UserContext) (lo : LO) : Bool :=
  decide (lo.requires_mastery.getD 0 > ctx.mastery_level.getD 1) ||
  (lo.type == some "video" && ctx.bandwidth == some "low") ||
  (match lo.language with
   | some s => s != "" && s != ctx.language.getD ""
   | none => false)

/-- The primary path reported by an explanation, when one exists. -/
def optimalPathOf : Explanation → Option (List String)
  | Explanation.noPath _ _ => none
  | Explanation.trace t => some t.optimal_path

/-- The exclusion records reported by an explanation (`[]` for the no-path
error dict, which only reports a count). -/
def excludedOf : Explanation → List (String × ExclusionReason)
  | Explanation.noPath _ _ => []
  | Explanation.trace t => t.excluded_los

/-- The number of excluded learning objects an explanation reports. -/
def excludedCount : Explanation → ℕ
  | Explanation.noPath c _ => c
  | Explanation.trace t => t.excluded_los.length

/-! ### Concrete inputs used by the scenarios and witnesses -/

/-- Scenario A, LO q1: duration 5, accuracy/pedagogical weight 0.9, type
question, lang en, mastery 0. -/
def q1A : LO := ⟨"q1", some 5, some (9/10), some "question", some "en", some 0⟩

/-- Scenario A, LO q2: duration 20, accuracy/pedagogical weight 0.5, type
video, lang en, mastery 0.8. -/
def q2A : LO := ⟨"q2", some 20, some (1/2), some "video", some "en", some (4/5)⟩

/-- Scenario A context: mastery 0.5, bandwidth low, language en, budget 60. -/
def ctxA : UserContext := ⟨none, some "low", some "en", some (1/2), some 60⟩

/-- A 5-minute video in the user's language (C3 counterexample). -/
def loC3 : LO := ⟨"v0", some 5, some (1/2), some "video", some "en", some 0⟩

/-- Mobile device, high bandwidth, matching language, full mastery, budget
60 (C3 counterexample). -/
def ctxC3 : UserContext := ⟨some "mobile", some "high", some "en", some 1, some 60⟩

/-- A 120-minute video in the user's language (C4 counterexample: triggers
the claimed mobile-video and time-budget rules). -/
def loC4 : LO := ⟨"v1", some 120, some (1/2), some "video", some "en", some 0⟩

/-- Mobile device, high bandwidth, matching language, full mastery, budget
60 (C4 counterexample). -/
def ctxC4 : UserContext := ⟨some "mobile", some "high", some "en", some 1, some 60⟩

/-- A row whose language is a non-empty string (C8 failing input). -/
def loC8 : LO := ⟨"x", none, none, none, some "en", none⟩

/-- A context with every optional field absent (C8 failing input). -/
def ctxC8 : UserContext := ⟨none, none, none, none, none⟩

/-! ### Helper lemmas: the enumeration `simplePaths` is exactly the simple
START→GOAL paths -/

lemma mem_succs {es : List (String × String)} {u v : String} :
    v ∈ succs es u ↔ (u, v) ∈ es := by
  constructor
  · intro h
    rcases List.mem_map.mp h with ⟨e, he, rfl⟩
    rcases List.mem_filter.mp he with ⟨hes, hpred⟩
    have : e.1 = u := by simpa using hpred
    simpa [← this] using hes
  · intro h
    exact List.mem_map.mpr ⟨(u, v), List.mem_filter.mpr ⟨h, by simp⟩, rfl⟩

lemma simplePathsAux_sound_shape {es : List (String × String)} :
    ∀ {n : ℕ} {u : String} {visited p : List String},
      p ∈ simplePathsAux es n u visited →
      p.head? = some u ∧ p.getLast? = some "GOAL" ∧
        p.Chain' (fun a b => (a, b) ∈ es) := by
  intro n
  induction n with
  | zero =>
    intro u visited p hp
    by_cases hu : u = "GOAL" <;> simp [simplePathsAux, hu] at hp
    subst hp; simp [hu]
  | succ n ih =>
    intro u visited p hp
    by_cases hu : u = "GOAL"
    · simp [simplePathsAux, hu] at hp
      subst hp; simp [hu]
    · simp only [simplePathsAux, if_neg hu, List.mem_flatMap, List.mem_map,
        List.mem_filter] at hp
      rcases hp with ⟨v, ⟨hv, -⟩, q, hq, rfl⟩
      rcases ih hq with ⟨hhead, hlast, hchain⟩
      rcases q with - | ⟨v', q'⟩
      · simp at hhead
      · have hv' : v' = v := by simpa using hhead
        subst hv'
        refine ⟨rfl, by simpa using hlast, ?_⟩
        exact List.chain'_cons.mpr ⟨mem_succs.mp hv, hchain⟩

lemma simplePathsAux_sound_nodup {es : List (String × String)} :
    ∀ {n : ℕ} {u : String} {visited p : List String},
      u ∈ visited → p ∈ simplePathsAux es n u visited →
      p.Nodup ∧ ∀ x ∈ p.tail, x ∉ visited := by
  intro n
  induction n with
  | zero =>
    intro u visited p _ hp
    by_cases hu : u = "GOAL" <;> simp [simplePathsAux, hu] at hp
    subst hp; simp
  | succ n ih =>
    intro u visited p huv hp
    by_cases hu : u = "GOAL"
    · simp [simplePathsAux, hu] at hp
      subst hp; simp
    · simp only [simplePathsAux, if_neg hu, List.mem_flatMap, List.mem_map,
        List.mem_filter] at hp
      rcases hp with ⟨v, ⟨-, hnv⟩, q, hq, rfl⟩
      have hvvis : v ∉ visited := by simpa using hnv
      rcases ih (List.mem_cons_self v visited) hq with ⟨hqnd, hqtail⟩
      have hqhead : q.head? = some v := (simplePathsAux_sound_shape hq).1
      have hqvis : ∀ x ∈ q, x ∉ visited := by
        rcases q with - | ⟨v', q'⟩
        · simp
        · have hv' : v' = v := by simpa using hqhead
          subst hv'
          intro x hx
          rcases List.mem_cons.mp hx with rfl | hx'
          · exact hvvis
          · exact fun hxv => (hqtail x hx') (List.mem_cons_of_mem _ hxv)
      refine ⟨List.nodup_cons.mpr ⟨fun hu' => hqvis u hu' huv, hqnd⟩, ?_⟩
      intro x hx
      exact hqvis x hx

lemma simplePathsAux_complete {es : List (String × String)} :
    ∀ {n : ℕ} {u : String} {visited p : List String},
      p.head? = some u → p.getLast? = some "GOAL" →
      p.Chain' (fun a b => (a, b) ∈ es) → p.Nodup →
      (∀ x ∈ p.tail, x ∉ visited) → p.length ≤ n + 1 →
      p ∈ simplePathsAux es n u visited := by
  intro n
  induction n with
  | zero =>
    intro u visited p hh hl hc hnd htl hlen
    rcases p with - | ⟨x, rest⟩
    · simp at hh
    · have hx : x = u := by simpa using hh
      subst hx
      have hrest : rest = [] := by
        cases rest with
        | nil => rfl
        | cons b t => simp at hlen
      subst hrest
      have hg : x = "GOAL" := by simpa using hl
      simp [simplePathsAux, hg]
  | succ n ih =>
    intro u visited p hh hl hc hnd htl hlen
    rcases p with - | ⟨x, rest⟩
    · simp at hh
    · have hx : x = u := by simpa using hh
      subst hx
      rcases rest with - | ⟨v, rest'⟩
      · have hg : x = "GOAL" := by simpa using hl
        simp [simplePathsAux, hg]
      · have hxg : x ≠ "GOAL" := by
          intro hg
          have hl' : (v :: rest').getLast? = some "GOAL" := by
            simpa [List.getLast?_cons_cons] using hl
          have : "GOAL" ∈ v :: rest' := List.mem_of_mem_getLast? hl'
          exact (List.nodup_cons.mp hnd).1 (hg ▸ this)
        have hl' : (v :: rest').getLast? = some "GOAL" := by
          simpa [List.getLast?_cons_cons] using hl
        have hcv : (x, v) ∈ es := (List.chain'_cons.mp hc).1
        have hvtl : v ∉ visited := htl v (by simp)
        have hmem' : (v :: rest') ∈ simplePathsAux es n v (v :: visited) := by
          apply ih (List.head?_cons) hl' (List.chain'_cons.mp hc).2 hnd.of_cons
          · intro y hy
            simp only [List.mem_cons, not_or]
            refine ⟨?_, htl y (List.mem_cons_of_mem _ hy)⟩
            intro hyv
            exact (List.nodup_cons.mp hnd.of_cons).1 (hyv ▸ hy)
          · simp only [List.length_cons] at hlen ⊢
            omega
        simp only [simplePathsAux, if_neg hxg, List.mem_flatMap]
        refine ⟨v, List.mem_filter.mpr ⟨mem_succs.mpr hcv, by simpa using hvtl⟩, ?_⟩
        exact List.mem_map.mpr ⟨v :: rest', hmem', rfl⟩

lemma succs_nodup {es : List (String × String)} (hes : es.Nodup) (u : String) :
    (succs es u).Nodup := by
  apply List.Nodup.map_on ?_ (hes.filter _)
  intro e he e' he' h2
  have h1 : e.1 = u := by simpa using (List.mem_filter.mp he).2
  have h1' : e'.1 = u := by simpa using (List.mem_filter.mp he').2
  cases e; cases e'
  simp_all

lemma simplePathsAux_nodup {es : List (String × String)} (hes : es.Nodup) :
    ∀ {n : ℕ} {u : String} {visited : List String},
      (simplePathsAux es n u visited).Nodup := by
  intro n
  induction n with
  | zero =>
    intro u visited
    by_cases hu : u = "GOAL" <;> simp [simplePathsAux, hu]
  | succ n ih =>
    intro u visited
    by_cases hu : u = "GOAL"
    · simp [simplePathsAux, hu]
    · simp only [simplePathsAux, if_neg hu]
      apply List.nodup_flatMap.mpr
      constructor
      · intro v _
        exact ih.map (fun a b h => by simpa using h)
      · apply List.Pairwise.imp ?_ ((succs_nodup hes u).filter _)
        intro a b hab q hqa hqb
        rcases List.mem_map.mp hqa with ⟨r, hr, rfl⟩
        rcases List.mem_map.mp hqb with ⟨r', hr', he⟩
        have h1 : r.head? = some a := (simplePathsAux_sound_shape hr).1
        have h2 : r'.head? = some b := (simplePathsAux_sound_shape hr').1
        have hre : r' = r := by simpa using he
        rw [hre, h1] at h2
        exact hab (by simpa using h2)

lemma mem_addNode {ns : List String} {n x : String} :
    x ∈ addNode ns n ↔ x ∈ ns ∨ x = n := by
  unfold addNode
  split
  · next h => exact ⟨Or.inl, fun hx => hx.elim id (fun e => e ▸ h)⟩
  · next h => simp

lemma mem_foldl_addNode_pairs :
    ∀ (es : List (String × String)) (acc : List String) (x : String),
      x ∈ es.foldl (fun ns e => addNode (addNode ns e.1) e.2) acc ↔
        x ∈ acc ∨ ∃ e ∈ es, e.1 = x ∨ e.2 = x := by
  intro es
  induction es with
  | nil => simp
  | cons e es ih =>
    intro acc x
    simp only [List.foldl_cons]
    rw [ih]
    simp only [mem_addNode, List.mem_cons]
    constructor
    · rintro (((h | h) | h) | ⟨e', he', h⟩)
      · exact Or.inl h
      · exact Or.inr ⟨e, Or.inl rfl, Or.inl h.symm⟩
      · exact Or.inr ⟨e, Or.inl rfl, Or.inr h.symm⟩
      · exact Or.inr ⟨e', Or.inr he', h⟩
    · rintro (h | ⟨e', (rfl | he'), h⟩)
      · exact Or.inl (Or.inl (Or.inl h))
      · rcases h with h | h
        · exact Or.inl (Or.inl (Or.inr h.symm))
        · exact Or.inl (Or.inr h.symm)
      · exact Or.inr ⟨e', he', h⟩

lemma mem_edgeNodes {es : List (String × String)} {x : String} :
    x ∈ edgeNodes es ↔ x = "START" ∨ ∃ e ∈ es, e.1 = x ∨ e.2 = x := by
  unfold edgeNodes
  rw [mem_foldl_addNode_pairs]
  simp

lemma mem_of_chain'_tail {R : String → String → Prop} :
    ∀ {p : List String}, p.Chain' R → ∀ x ∈ p.tail, ∃ y, R y x := by
  intro p
  induction p with
  | nil => simp
  | cons a q ih =>
    intro hc x hx
    rcases q with - | ⟨b, q'⟩
    · simp at hx
    · rcases List.mem_cons.mp hx with rfl | hx'
      · exact ⟨a, (List.chain'_cons.mp hc).1⟩
      · exact ih (List.chain'_cons.mp hc).2 x hx'

lemma mem_simplePaths {es : List (String × String)} {p : List String} :
    p ∈ simplePaths es ↔ IsSimplePath es p := by
  constructor
  · intro hp
    have h1 := simplePathsAux_sound_shape hp
    have h2 := simplePathsAux_sound_nodup (by simp) hp
    exact ⟨h1.1, h1.2.1, h2.1, h1.2.2⟩
  · rintro ⟨hh, hl, hnd, hc⟩
    apply simplePathsAux_complete hh hl hc hnd
    · intro x hx hx'
      have hxs : x = "START" := by simpa using hx'
      subst hxs
      rcases p with - | ⟨a, q⟩
      · simp at hh
      · have ha : a = "START" := by simpa using hh
        subst ha
        exact (List.nodup_cons.mp hnd).1 hx
    · have hsub : ∀ x ∈ p, x ∈ edgeNodes es := by
        intro x hx
        rcases p with - | ⟨a, q⟩
        · simp at hh
        · have ha : a = "START" := by simpa using hh
          rcases List.mem_cons.mp hx with rfl | hx'
          · exact mem_edgeNodes.mpr (Or.inl ha)
          · rcases mem_of_chain'_tail hc x hx' with ⟨y, hy⟩
            exact mem_edgeNodes.mpr (Or.inr ⟨(y, x), hy, Or.inr rfl⟩)
      have hle : p.length ≤ (edgeNodes es).length := by
        calc p.length = p.toFinset.card := (List.toFinset_card_of_nodup hnd).symm
          _ ≤ (edgeNodes es).toFinset.card := Finset.card_le_card
              (fun x hx => List.mem_toFinset.mpr (hsub x (List.mem_toFinset.mp hx)))
          _ ≤ (edgeNodes es).length := List.toFinset_card_le _
      unfold simplePaths at *
      omega

/-! ### Helper lemmas: filter characterization, sorting, projections -/

lemma filterStep_eq {ctx : UserContext} {cl : String} (hcl : ctx.language = some cl)
    (lo : LO) :
    filterStep ctx lo = Except.ok (if hardExcluded ctx lo then some lo.lo_id else none) := by
  unfold filterStep hardExcluded
  by_cases h1 : lo.requires_mastery.getD 0 > ctx.mastery_level.getD 1
  · simp [h1]
  · by_cases h2 : lo.type = some "video" ∧ ctx.bandwidth = some "low"
    · simp [h1, h2]
    · rcases hlo : lo.language with - | s
      · simp [h1, h2, hlo]
      · rw [hcl]
        by_cases h3 : s = ""
        · simp [h1, h2, hlo, h3, hcl]
        · by_cases h4 : s = cl
          · simp [h1, h2, hlo, h3, h4, hcl]
          · simp [h1, h2, hlo, h3, h4, hcl]

lemma pathsOf_mapIdx (c : List String → Cost) :
    ∀ (l : List (List String)) (g : ℕ → ℕ),
      pathsOf (l.mapIdx (fun i q => ⟨some q, c q, some (g i), none⟩)) = l := by
  intro l
  induction l with
  | nil => intro g; simp [pathsOf, List.mapIdx_nil]
  | cons a t ih =>
    intro g
    rw [List.mapIdx_cons]
    unfold pathsOf at ih ⊢
    rw [List.filterMap_cons]
    simpa using ih (fun i => g (i + 1))

lemma no_simple_path_empty : ∀ p, ¬ IsSimplePath [] p := by
  rintro p ⟨hh, hl, -, hc⟩
  rcases p with - | ⟨a, q⟩
  · simp at hh
  · rcases q with - | ⟨b, q'⟩
    · have ha : a = "START" := by simpa using hh
      have hg : a = "GOAL" := by simpa using hl
      rw [ha] at hg
      simp at hg
    · exact absurd (List.chain'_cons.mp hc).1 (by simp)

lemma simplePaths_eq_nil_of_none {es : List (String × String)}
    (hnp : ∀ p, ¬ IsSimplePath es p) : simplePaths es = [] := by
  rcases h : simplePaths es with - | ⟨p, ps⟩
  · rfl
  · exact absurd (mem_simplePaths.mp (h ▸ List.mem_cons_self p ps)) (hnp p)

lemma penalty_mastery_split (lo : LO) (ctx : UserContext)
    (hm : 0 ≤ ctx.mastery_level.getD 1)
    (hdef : lo.requires_mastery.getD 0 > ctx.mastery_level.getD 1) :
    compute_context_penalty lo ctx =
      compute_context_penalty { lo with requires_mastery := some 0 } ctx + 100 := by
  have e5 : ({ lo with requires_mastery := some 0 } : LO).requires_mastery = some 0 := rfl
  have e1 : ({ lo with requires_mastery := some 0 } : LO).type = lo.type := rfl
  have e2 : ({ lo with requires_mastery := some 0 } : LO).duration_min = lo.duration_min := rfl
  have e3 : ({ lo with requires_mastery := some 0 } : LO).language = lo.language := rfl
  have h0 : ¬ ((some (0:ℚ)).getD 0 > ctx.mastery_level.getD 1) := by
    simpa using not_lt.mpr hm
  simp only [compute_context_penalty, e5, e1, e2, e3]
  rw [if_pos hdef, if_neg h0]
  ring

/-! ### Claim theorems -/

/-- C3 (counterexample): the claim asserts the context penalty is the sum of
exactly four terms (+15 video/low-bandwidth, +10 video+mobile+long-duration,
+20 language mismatch, +10 over-budget duration). On a 5-minute video viewed
on mobile with high bandwidth, matching language, full mastery, and a
60-minute budget, every claimed term is zero, yet the code computes 8 (its
unconditional video+mobile term), so the claim is false at this input. -/
theorem c3_penalty_terms_counterexample :
    compute_context_penalty loC3 ctxC3 = 8 ∧ claimPenaltyC3 loC3 ctxC3 = 0 := by
  constructor
  · simp +decide [compute_context_penalty, loC3, ctxC3]
    norm_num
  · simp +decide [claimPenaltyC3, loC3, ctxC3]
    norm_num

/-- C3 (amended): for every learning object and context, the context penalty
equals the sum of exactly these terms and no others: +15 for video with low
bandwidth, +8 for video on a mobile device (regardless of duration), +20
when duration exceeds 0.7×time_budget, +25 for language mismatch, and +100
when required mastery exceeds the learner's mastery level. -/
theorem c3_penalty_terms_amended (lo : LO) (ctx : UserContext) :
    compute_context_penalty lo ctx =
      (if lo.type = some "video" ∧ ctx.bandwidth = some "low" then 15 else 0) +
      (if lo.type = some "video" ∧ ctx.device = some "mobile" then 8 else 0) +
      (if lo.language ≠ ctx.language then 25 else 0) +
      (if lo.duration_min.getD 5 > ctx.time_budget_min.getD 60 * (7/10) then 20 else 0) +
      (if lo.requires_mastery.getD 0 > ctx.mastery_level.getD 1 then 100 else 0) := by
  simp only [compute_context_penalty]
  ring

/-- C3 (amended, witness): the amended formula evaluated at the C3
counterexample input. -/
theorem c3_penalty_terms_amended_witness :
    compute_context_penalty loC3 ctxC3 =
      (if loC3.type = some "video" ∧ ctxC3.bandwidth = some "low" then 15 else 0) +
      (if loC3.type = some "video" ∧ ctxC3.device = some "mobile" then 8 else 0) +
      (if loC3.language ≠ ctxC3.language then 25 else 0) +
      (if loC3.duration_min.getD 5 > ctxC3.time_budget_min.getD 60 * (7/10) then 20 else 0) +
      (if loC3.requires_mastery.getD 0 > ctxC3.mastery_level.getD 1 then 100 else 0) :=
  c3_penalty_terms_amended loC3 ctxC3

/-- C4 (counterexample): the claim asserts five hard rules, in particular
that a mobile long video is excluded and that an object longer than the time
budget is excluded. A 120-minute video on a mobile device with a 60-minute
budget triggers both claimed rules, yet `apply_semantic_filter` keeps it:
the code has no mobile-video rule and no time-budget rule. -/
theorem c4_filter_rules_counterexample :
    loC4.type = some "video" ∧ ctxC4.device = some "mobile" ∧
    loC4.duration_min.getD 5 > 20 ∧
    loC4.duration_min.getD 5 > ctxC4.time_budget_min.getD 60 ∧
    apply_semantic_filter [loC4] ctxC4 = Except.ok ([loC4], []) := by
  refine ⟨rfl, rfl, by norm_num [loC4], by norm_num [loC4, ctxC4], ?_⟩
  simp +decide [apply_semantic_filter, filterStep, loC4, ctxC4]

/-- C4 (amended): whenever the context has a language (so the filter's raw
`user_context['language']` access cannot raise), `apply_semantic_filter`
excludes a row if and only if one of its three ordered hard rules matches —
mastery deficit, video with low bandwidth, or non-empty mismatching
language — keeping the rest in order. There is no mobile-video rule and no
time-budget rule. -/
theorem c4_filter_rules_amended (los : List LO) (ctx : UserContext) (cl : String)
    (hcl : ctx.language = some cl) :
    apply_semantic_filter los ctx =
      Except.ok (los.filter (fun lo => !hardExcluded ctx lo),
        (los.filter (hardExcluded ctx)).map (fun lo => lo.lo_id)) := by
  induction los with
  | nil => simp [apply_semantic_filter]
  | cons lo rest ih =>
    have hstep := filterStep_eq hcl lo
    by_cases hex : hardExcluded ctx lo
    · simp [apply_semantic_filter, hstep, hex, ih, List.filter_cons]
    · simp [apply_semantic_filter, hstep, hex, ih, List.filter_cons]

/-- C4 (amended, witness): the amended filter characterization evaluated at
the C4 counterexample input. -/
theorem c4_filter_rules_amended_witness :
    apply_semantic_filter [loC4] ctxC4 =
      Except.ok ([loC4].filter (fun lo => !hardExcluded ctxC4 lo),
        ([loC4].filter (hardExcluded ctxC4)).map (fun lo => lo.lo_id)) :=
  c4_filter_rules_amended [loC4] ctxC4 "en" rfl

/-- C5: every non-sentinel edge of the built graph has weight
`max(ALPHA*duration + BETA*difficulty + GAMMA*penalty, 1e-6)`, hence
strictly positive even when all cost terms are zero. -/
theorem c5_edge_weight_floor (lo_df : List LO) (prereq : List (String × String))
    (ctx : UserContext) (u v : String)
    (_hmem : (u, v) ∈ (build_weighted_dag lo_df prereq ctx).edges)
    (hu : u ≠ "START") (hv : v ≠ "GOAL") :
    (build_weighted_dag lo_df prereq ctx).weight u v =
      max (ALPHA * ((nodeAttr lo_df v).duration_min.getD 5) +
        BETA * (1 - (nodeAttr lo_df v).pedagogical_weight.getD (1/2)) +
        GAMMA * compute_context_penalty (nodeAttr lo_df v) ctx) EPSILON ∧
    0 < (build_weighted_dag lo_df prereq ctx).weight u v := by
  have hw : (build_weighted_dag lo_df prereq ctx).weight u v = edge_weight lo_df ctx u v := rfl
  have hne : ¬ (u = "START" ∨ v = "GOAL") := by tauto
  constructor
  · rw [hw]
    unfold edge_weight
    rw [if_neg hne]
  · rw [hw]
    unfold edge_weight
    rw [if_neg hne]
    refine lt_of_lt_of_le ?_ (le_max_right _ _)
    norm_num [EPSILON]

/-- C5 (witness): the floor invariant on the concrete edge ("a","b") of the
graph built from an empty row table and the single prerequisite ("a","b"). -/
theorem c5_edge_weight_floor_witness :
    ((build_weighted_dag [] [("a","b")] ctxC8).weight "a" "b" =
      max (ALPHA * ((nodeAttr [] "b").duration_min.getD 5) +
        BETA * (1 - (nodeAttr [] "b").pedagogical_weight.getD (1/2)) +
        GAMMA * compute_context_penalty (nodeAttr [] "b") ctxC8) EPSILON ∧
    0 < (build_weighted_dag [] [("a","b")] ctxC8).weight "a" "b") :=
  c5_edge_weight_floor [] [("a","b")] ctxC8 "a" "b" (by decide) (by decide) (by decide)

/-- C8: the claim says missing optional context fields are substituted with
defaults and never cause a failure. But for a row whose language is a
non-empty string, `apply_semantic_filter` reads `user_context['language']`
with a raw dict access: with the language key absent the filter — and the
pipeline with semantic filtering enabled — raises `KeyError`. -/
theorem c8_missing_language_keyerror :
    apply_semantic_filter [loC8] ctxC8 = Except.error "KeyError: language" ∧
    run_ikrae_pipeline [loC8] [] ctxC8 1 true = Except.error "KeyError: language" := by
  constructor
  · simp +decide [apply_semantic_filter, filterStep, loC8, ctxC8]
  · simp +decide [run_ikrae_pipeline, apply_semantic_filter, filterStep, loC8, ctxC8]

/-- C9: the pipeline is a pure function of its inputs — two runs with equal
LO tables, prerequisite edges, contexts, k, and mode produce identical
output (primary path, costs, and all), with ties broken identically. -/
theorem c9_determinism (lo1 lo2 : List LO) (pr1 pr2 : List (String × String))
    (ctx1 ctx2 : UserContext) (k1 k2 : ℕ) (u1 u2 : Bool)
    (h1 : lo1 = lo2) (h2 : pr1 = pr2) (h3 : ctx1 = ctx2) (h4 : k1 = k2)
    (h5 : u1 = u2) :
    run_ikrae_pipeline lo1 pr1 ctx1 k1 u1 = run_ikrae_pipeline lo2 pr2 ctx2 k2 u2 := by
  rw [h1, h2, h3, h4, h5]

/-- C9 (witness): determinism instantiated at the Scenario A input. -/
theorem c9_determinism_witness :
    run_ikrae_pipeline [q1A, q2A] [("q1","q2")] ctxA 1 true =
      run_ikrae_pipeline [q1A, q2A] [("q1","q2")] ctxA 1 true :=
  c9_determinism [q1A, q2A] [q1A, q2A] [("q1","q2")] [("q1","q2")] ctxA ctxA 1 1
    true true rfl rfl rfl rfl rfl

/-- C1 (code bug, Scenario A evaluation): the claim requires every
mastery-infeasible LO to appear in `excluded_los` with a mastery-related
reason and in no returned path, with the graph builder dropping its edges.
In fact `build_weighted_dag` passes the raw prerequisite list to `add_edge`,
which silently re-creates the filtered-out node q2 without attributes: the
edge ("q1","q2") is retained although q2 did not survive filtering, q2
appears in the returned primary path, and its recorded reason is "unknown"
(the attribute-less graph node hides `requires_mastery`). -/
theorem c1_mastery_exclusion_violated :
    apply_semantic_filter [q1A, q2A] ctxA = Except.ok ([q1A], ["q2"]) ∧
    ("q1","q2") ∈ (build_weighted_dag [q1A] [("q1","q2")] ctxA).edges ∧
    Except.map excludedOf (run_ikrae_pipeline [q1A, q2A] [("q1","q2")] ctxA 1 true) =
      Except.ok [("q2", ExclusionReason.unknown)] ∧
    Except.map optimalPathOf (run_ikrae_pipeline [q1A, q2A] [("q1","q2")] ctxA 1 true) =
      Except.ok (some ["START", "q1", "q2", "GOAL"]) := by
  refine ⟨?_, by decide, ?_, ?_⟩
  · simp +decide [apply_semantic_filter, filterStep, q1A, q2A, ctxA]
  · simp +decide [Except.map, run_ikrae_pipeline, apply_semantic_filter, filterStep,
      build_weighted_dag, prereqEdgeList, baseNodes, entryLos, exitLos, addNode,
      insertEdge, nodeAttr, edge_weight, edge_breakdown, compute_context_penalty,
      optimize_path, rankedPaths, simplePaths, edgeNodes, simplePathsAux, succs,
      pathCost, generate_explanation, exclusionReason, setAlts, excludedOf,
      q1A, q2A, ctxA]
  · simp +decide [Except.map, run_ikrae_pipeline, apply_semantic_filter, filterStep,
      build_weighted_dag, prereqEdgeList, baseNodes, entryLos, exitLos, addNode,
      insertEdge, nodeAttr, edge_weight, edge_breakdown, compute_context_penalty,
      optimize_path, rankedPaths, simplePaths, edgeNodes, simplePathsAux, succs,
      pathCost, generate_explanation, exclusionReason, setAlts, optimalPathOf,
      q1A, q2A, ctxA]

/-- C2 (code bug, Scenario A evaluation): on Scenario A the claim expects q2
to disappear from the path space, primary path [START, q1, GOAL] with cost
2.03. The code instead re-creates q2 as an attribute-less node via the
prerequisite edge, routes the only path through it, and prices the q1→q2
edge from the empty attribute dict (defaults duration 5, pedagogical weight
0.5, and a +25 penalty because the missing language differs from "en"):
primary path [START, q1, q2, GOAL] with cost 9.65 = 193/20. -/
theorem c2_scenario_a_actual_behavior :
    run_ikrae_pipeline [q1A, q2A] [("q1","q2")] ctxA 1 true =
      Except.ok (Explanation.trace
        { optimal_path := ["START", "q1", "q2", "GOAL"]
          total_cost := Cost.finite (193/20)
          cost_breakdown := [⟨"START", "q1", none⟩,
            ⟨"q1", "q2", some ⟨5, 1/2, 25, 193/20⟩⟩, ⟨"q2", "GOAL", none⟩]
          excluded_los := [("q2", ExclusionReason.unknown)]
          k_alternatives := [] }) := by
  simp +decide [run_ikrae_pipeline, apply_semantic_filter, filterStep,
    build_weighted_dag, prereqEdgeList, baseNodes, entryLos, exitLos, addNode,
    insertEdge, nodeAttr, edge_weight, edge_breakdown, compute_context_penalty,
    optimize_path, rankedPaths, simplePaths, edgeNodes, simplePathsAux, succs,
    pathCost, generate_explanation, exclusionReason, setAlts,
    q1A, q2A, ctxA]
  norm_num [ALPHA, BETA, GAMMA, EPSILON, max_def]

/-- C6: for every duplicate-free edge set, weight map, and `k > 1`, the
search returns only simple START→GOAL paths, in non-decreasing cost order,
and at most `min k (number of simple paths)` of them — where `simplePaths`
is proved to enumerate exactly the simple paths, without duplicates. -/
theorem c6_k_shortest_contract (es : List (String × String))
    (w : String → String → ℚ) (k : ℕ) (hk : 1 < k) (hnd : es.Nodup) :
    KShortestSpec es w k := by
  have hchar : ∀ p, IsSimplePath es p ↔ p ∈ simplePaths es :=
    fun p => mem_simplePaths.symm
  have hnodup : (simplePaths es).Nodup := simplePathsAux_nodup hnd
  have hperm : (rankedPaths es w).Perm (simplePaths es) :=
    List.perm_insertionSort _ _
  unfold KShortestSpec
  rcases hrp : rankedPaths es w with - | ⟨p0, ps⟩
  · have hopt : optimize_path es w k =
        [⟨none, Cost.inf, none, some "No feasible path"⟩] := by
      unfold optimize_path
      rw [hrp]
    rw [hopt]
    refine ⟨?_, ?_, ?_, hchar, hnodup⟩
    · intro p hp
      simp [pathsOf] at hp
    · simp [pathsOf]
    · simp [pathsOf]
  · have hk1 : k ≠ 1 := by omega
    have hstep : optimize_path es w k =
        if k = 1 then [⟨some p0, Cost.finite (pathCost w p0), some 1, none⟩]
        else ((p0 :: ps).take k).mapIdx
          (fun i q => ⟨some q, Cost.finite (pathCost w q), some (i + 1), none⟩) := by
      unfold optimize_path
      rw [hrp]
    have hopt : optimize_path es w k =
        ((p0 :: ps).take k).mapIdx
          (fun i q => ⟨some q, Cost.finite (pathCost w q), some (i + 1), none⟩) := by
      rw [hstep, if_neg hk1]
    have hpaths : pathsOf (optimize_path es w k) = (p0 :: ps).take k := by
      rw [hopt]
      exact pathsOf_mapIdx (fun q => Cost.finite (pathCost w q)) _ (fun i => i + 1)
    have hmemall : ∀ p ∈ (p0 :: ps).take k, p ∈ simplePaths es := by
      intro p hp
      have h1 : p ∈ p0 :: ps := (List.take_sublist _ _).subset hp
      rw [← hrp] at h1
      exact hperm.mem_iff.mp h1
    refine ⟨?_, ?_, ?_, hchar, hnodup⟩
    · intro p hp
      rw [hpaths] at hp
      exact mem_simplePaths.mp (hmemall p hp)
    · rw [hpaths]
      letI : IsTotal (List String) (fun p q => pathCost w p ≤ pathCost w q) :=
        ⟨fun a b => le_total _ _⟩
      letI : IsTrans (List String) (fun p q => pathCost w p ≤ pathCost w q) :=
        ⟨fun a b c hab hbc => le_trans hab hbc⟩
      have hs : List.Sorted (fun p q => pathCost w p ≤ pathCost w q)
          (rankedPaths es w) := List.sorted_insertionSort _ _
      rw [hrp] at hs
      exact List.Pairwise.sublist (List.take_sublist _ _) hs
    · rw [hpaths, List.length_take]
      have hlen : (p0 :: ps).length = (simplePaths es).length := by
        rw [← hrp]
        exact hperm.length_eq
      rw [hlen]

/-- C6 (witness): the contract instantiated on the two-edge graph
START→a→GOAL with unit weights and k = 2. -/
theorem c6_k_shortest_contract_witness :
    KShortestSpec [("START", "a"), ("a", "GOAL")] (fun _ _ => (1 : ℚ)) 2 :=
  c6_k_shortest_contract [("START", "a"), ("a", "GOAL")] (fun _ _ => (1 : ℚ)) 2
    (by norm_num) (by decide)

/-- C7: whenever filtering succeeds and the built graph admits no simple
START→GOAL path (e.g. an empty feasible set), the search returns the single
structured no-path result with infinite cost and a populated error field,
and the pipeline completes with a structured no-path trace instead of
raising. -/
theorem c7_no_path_structured_result (lo_df fls : List LO) (inf : List String)
    (prereq : List (String × String)) (ctx : UserContext) (k : ℕ)
    (hf : apply_semantic_filter lo_df ctx = Except.ok (fls, inf))
    (hnp : ∀ p, ¬ IsSimplePath (build_weighted_dag fls prereq ctx).edges p) :
    optimize_path (build_weighted_dag fls prereq ctx).edges
        (build_weighted_dag fls prereq ctx).weight k =
      [⟨none, Cost.inf, none, some "No feasible path"⟩] ∧
    run_ikrae_pipeline lo_df prereq ctx k true =
      Except.ok (Explanation.noPath inf.length []) := by
  have hsp : simplePaths (build_weighted_dag fls prereq ctx).edges = [] :=
    simplePaths_eq_nil_of_none hnp
  have hrk : rankedPaths (build_weighted_dag fls prereq ctx).edges
      (build_weighted_dag fls prereq ctx).weight = [] := by
    unfold rankedPaths
    rw [hsp]
    rfl
  have hopt : optimize_path (build_weighted_dag fls prereq ctx).edges
      (build_weighted_dag fls prereq ctx).weight k =
      [⟨none, Cost.inf, none, some "No feasible path"⟩] := by
    unfold optimize_path
    rw [hrk]
  refine ⟨hopt, ?_⟩
  unfold run_ikrae_pipeline
  rw [if_pos rfl, hf]
  simp only [hopt, generate_explanation, setAlts, List.length_nil, List.map_nil]

/-- C7 (witness): Scenario B — q2 is mastery-filtered, the feasible set is
empty, the graph has no path, and the pipeline reports the structured
no-path trace. -/
theorem c7_no_path_structured_result_witness :
    (optimize_path (build_weighted_dag [] [] ctxA).edges
        (build_weighted_dag [] [] ctxA).weight 1 =
      [⟨none, Cost.inf, none, some "No feasible path"⟩] ∧
    run_ikrae_pipeline [q2A] [] ctxA 1 true =
      Except.ok (Explanation.noPath 1 [])) :=
  c7_no_path_structured_result [q2A] [] ["q2"] [] ctxA 1
    (by simp +decide [apply_semantic_filter, filterStep, q2A, ctxA])
    no_simple_path_empty

/-- C10: with `use_semantic = False` nothing is excluded (the trace reports
zero excluded LOs); instead a mastery-infeasible destination adds +100 to
the context penalty inside the weight of each of its incoming non-sentinel
edges, and such an LO can still appear in the returned primary path, as the
Scenario A input run without filtering shows. -/
theorem c10_no_semantic_mode :
    (∀ (lo_df : List LO) (ctx : UserContext) (u v : String),
      u ≠ "START" → v ≠ "GOAL" → 0 ≤ ctx.mastery_level.getD 1 →
      (nodeAttr lo_df v).requires_mastery.getD 0 > ctx.mastery_level.getD 1 →
      edge_weight lo_df ctx u v =
        max (ALPHA * ((nodeAttr lo_df v).duration_min.getD 5) +
          BETA * (1 - (nodeAttr lo_df v).pedagogical_weight.getD (1/2)) +
          GAMMA * (compute_context_penalty
            { nodeAttr lo_df v with requires_mastery := some 0 } ctx + 100)) EPSILON) ∧
    (∀ (lo_df : List LO) (prereq : List (String × String)) (ctx : UserContext)
      (k : ℕ) (e : Explanation),
      run_ikrae_pipeline lo_df prereq ctx k false = Except.ok e →
      excludedCount e = 0) ∧
    Except.map optimalPathOf (run_ikrae_pipeline [q1A, q2A] [("q1","q2")] ctxA 1 false) =
      Except.ok (some ["START", "q1", "q2", "GOAL"]) ∧
    q2A.requires_mastery.getD 0 > ctxA.mastery_level.getD 1 := by
  refine ⟨?_, ?_, ?_, by norm_num [q2A, ctxA]⟩
  · intro lo_df ctx u v hu hv hm hdef
    have hne : ¬ (u = "START" ∨ v = "GOAL") := by tauto
    simp only [edge_weight, if_neg hne]
    rw [penalty_mastery_split _ _ hm hdef]
  · intro lo_df prereq ctx k e h
    have hrw : run_ikrae_pipeline lo_df prereq ctx k false =
        (match optimize_path (build_weighted_dag lo_df prereq ctx).edges
            (build_weighted_dag lo_df prereq ctx).weight k with
         | [] => Except.error "IndexError: list index out of range"
         | primary :: rest =>
           Except.ok (setAlts
             (generate_explanation (build_weighted_dag lo_df prereq ctx) primary ctx [])
             (rest.map (fun p => ⟨p.rank, p.cost, p.path⟩)))) := rfl
    rw [hrw] at h
    rcases hopt : optimize_path (build_weighted_dag lo_df prereq ctx).edges
        (build_weighted_dag lo_df prereq ctx).weight k with - | ⟨primary, rest⟩ <;>
      rw [hopt] at h
    · exact absurd h (by simp)
    · injection h with he
      subst he
      rcases primary with ⟨pp, pc, pr, pe⟩
      rcases pp with - | p
      · simp [generate_explanation, setAlts, excludedCount]
      · rcases p with - | ⟨a, q⟩
        · simp [generate_explanation, setAlts, excludedCount]
        · simp [generate_explanation, setAlts, excludedCount]
  · simp +decide [Except.map, run_ikrae_pipeline, apply_semantic_filter, filterStep,
      build_weighted_dag, prereqEdgeList, baseNodes, entryLos, exitLos, addNode,
      insertEdge, nodeAttr, edge_weight, edge_breakdown, compute_context_penalty,
      optimize_path, rankedPaths, simplePaths, edgeNodes, simplePathsAux, succs,
      pathCost, generate_explanation, exclusionReason, setAlts, optimalPathOf,
      q1A, q2A, ctxA]

/-- C10 (witness): the +100 weight decomposition on the incoming edge
("q1","q2") with q2 unfiltered (mastery 0.8 > 0.5). -/
theorem c10_no_semantic_mode_witness :
    edge_weight [q2A] ctxA "q1" "q2" =
      max (ALPHA * ((nodeAttr [q2A] "q2").duration_min.getD 5) +
        BETA * (1 - (nodeAttr [q2A] "q2").pedagogical_weight.getD (1/2)) +
        GAMMA * (compute_context_penalty
          { nodeAttr [q2A] "q2" with requires_mastery := some 0 } ctxA + 100)) EPSILON :=
  c10_no_semantic_mode.1 [q2A] ctxA "q1" "q2" (by decide) (by decide)
    (by norm_num [ctxA]) (by simp +decide [nodeAttr, q2A, ctxA]; norm_num)

end Ikrae
